import Mathlib

/-!
Verification of the realtime scoring and adaptive frame-rate engine of
`ml/generate_realtime_text_dataset.py`.

The scoring pipeline is embedded shallowly: Python floats become exact
rationals (`ℚ`) for all plain arithmetic, and real numbers (`ℝ`) where the
saturating exponential `1 - exp(-raw * gain)` of `score_text_hits` is
involved.  Python dicts become insertion-ordered association lists
`List (String × α)`; `dict.get(k, d)` becomes `getD`, and iteration over
`set(a) | set(b)` becomes iteration over the deduplicated concatenation of
the two key lists (a deterministic refinement of Python's unspecified set
order; every claim below is insensitive to that order).
-/

namespace Controledu

/-- The closed AI label set, in source order (`AI_LABELS`). -/
def AI_LABELS : List String :=
  [ "chatgpt_ui"
  , "claude_ui"
  , "gemini_ui"
  , "copilot_ui"
  , "perplexity_ui"
  , "deepseek_ui"
  , "poe_ui"
  , "grok_ui"
  , "qwen_ui"
  , "mistral_ui"
  , "meta_ai_ui"
  , "ai_ui" ]

/-- The negative label (`NOT_AI_LABEL`). -/
def NOT_AI_LABEL : String := "not_ai_ui"

/-- The keyword dictionary `LABEL_KEYWORDS`, in source order. -/
def LABEL_KEYWORDS : List (String × List String) :=
  [ ("chatgpt_ui", ["chatgpt", "openai", "gpt-4", "gpt4", "chat.openai"])
  , ("claude_ui", ["claude", "anthropic", "claude.ai"])
  , ("gemini_ui", ["gemini", "bard", "deepmind", "gemini.google"])
  , ("copilot_ui", ["copilot", "microsoft copilot", "bing chat"])
  , ("perplexity_ui", ["perplexity", "perplexity.ai"])
  , ("deepseek_ui", ["deepseek", "chat.deepseek"])
  , ("poe_ui", ["poe.com", "poe by quora", "poe"])
  , ("grok_ui", ["grok", "xai", "grok.com"])
  , ("qwen_ui", ["qwen", "tongyi", "chat.qwen.ai"])
  , ("mistral_ui", ["mistral", "le chat", "chat.mistral.ai"])
  , ("meta_ai_ui", ["meta ai", "meta.ai", "llama"])
  , ("ai_ui", ["assistant", "chatbot", "language model", "llm", "prompt"]) ]

/-- Characters kept by the normalization regex `[^0-9a-z]+` (after
lowercasing): ASCII digits and lowercase letters. -/
def isKeptChar (c : Char) : Bool :=
  (decide ('0' ≤ c) && decide (c ≤ '9')) || (decide ('a' ≤ c) && decide (c ≤ 'z'))

/-- Collapse every run of consecutive spaces to a single space. -/
def collapseSpaces : List Char → List Char
  | [] => []
  | [c] => [c]
  | c1 :: c2 :: rest =>
    if c1 = ' ' ∧ c2 = ' ' then collapseSpaces (c2 :: rest)
    else c1 :: collapseSpaces (c2 :: rest)

/-- Remove leading and trailing spaces. -/
def stripSpaces (l : List Char) : List Char :=
  ((l.dropWhile (fun c => c = ' ')).reverse.dropWhile (fun c => c = ' ')).reverse

/-- The source's `normalize_text`: lowercase, replace every run of
non-alphanumeric characters by a single space, and strip.  The result is kept
as a character list. -/
def normalize_text (s : String) : List Char :=
  stripSpaces (collapseSpaces (s.data.map (fun c =>
    let lc := c.toLower
    if isKeptChar lc then lc else ' ')))

/-- One OCR detection (`OcrHit`): raw text, confidence, bounding box. -/
structure OcrHit where
  text : String
  confidence : ℚ
  bbox : ℤ × ℤ × ℤ × ℤ

/-- Association-list lookup with default, the model of `dict.get(k, d)`. -/
def getD {α : Type} : List (String × α) → String → α → α
  | [], _, d => d
  | (k, v) :: t, key, d => if k = key then v else getD t key d

/-- Keyword list of a label, read from `LABEL_KEYWORDS`. -/
def keywordsFor (label : String) : List String :=
  getD LABEL_KEYWORDS label []

/-- The length-based keyword weight `min(1.0, 0.35 + len(key_norm) / 16.0)`. -/
def kw_weight (keyNorm : List Char) : ℚ :=
  min 1 (7/20 + (keyNorm.length : ℚ) / 16)

/-- Total contribution of one OCR hit to `raw_scores[label]`: the hit is
skipped when its normalized text is empty; otherwise every keyword of the
label whose nonempty normalization is a substring of the normalized hit text
adds `hit.confidence * weight` to the label's raw score. -/
def hit_contrib (h : OcrHit) (label : String) : ℚ :=
  let normalized := normalize_text h.text
  if normalized = [] then 0
  else ((keywordsFor label).map (fun kw =>
    let keyNorm := normalize_text kw
    if keyNorm ≠ [] ∧ keyNorm <:+: normalized then
      h.confidence * kw_weight keyNorm
    else 0)).sum

/-- Accumulated `raw_scores[label]` over a hit list. -/
def raw_score (hits : List OcrHit) (label : String) : ℚ :=
  (hits.map (fun h => hit_contrib h label)).sum

/-- The saturating transform applied to a raw score:
`1 - exp(-max(0, raw) * max(0.05, keyword_gain))`. -/
noncomputable def tscoreVal (raw : ℚ) (keyword_gain : ℚ) : ℝ :=
  1 - Real.exp (-((max 0 raw * max (1/20) keyword_gain : ℚ) : ℝ))

/-- Maximum of a list of scores, `0` when the list is empty (the model of
Python's `max(values, default=0.0)` and of `max(values) if values else 0.0`). -/
def listMax {α : Type} [LinearOrderedField α] : List α → α
  | [] => 0
  | x :: t => t.foldl max x

/-- The source's `score_text_hits`, restricted to its first component (the
`text_scores` dict): every AI label, in order, receives the saturating
transform of its accumulated raw score, and `not_ai_ui` is appended with
`max(0, 1 - max_ai)`. -/
noncomputable def score_text_hits (hits : List OcrHit) (keyword_gain : ℚ) :
    List (String × ℝ) :=
  let text_scores := AI_LABELS.map (fun label =>
    (label, tscoreVal (raw_score hits label) keyword_gain))
  let max_ai := listMax (text_scores.map Prod.snd)
  text_scores ++ [(NOT_AI_LABEL, max 0 (1 - max_ai))]

/-- Deduplicated key union, the model of iterating `set(a) | set(b)`. -/
def unionKeys {α : Type} (a b : List (String × α)) : List String :=
  (a.map Prod.fst ++ b.map Prod.fst).dedup

/-- The source's `smooth_scores`: clamp `decay` to `[0, 0.99]` and take the
exponential moving average over the union of both key sets. -/
def smooth_scores {α : Type} [LinearOrderedField α]
    (previous current : List (String × α)) (decay : α) : List (String × α) :=
  let decay1 := min (max decay 0) (99/100)
  (unionKeys previous current).map (fun label =>
    (label, getD previous label 0 * decay1 + getD current label 0 * (1 - decay1)))

/-- The source's `fuse_scores`: clamp both weights to `≥ 0`; if their total is
`≤ 0`, force the weights to `(1, 0)` with total `1`; then take the weighted
average over the union of both key sets. -/
def fuse_scores {α : Type} [LinearOrderedField α]
    (text_scores model_scores : List (String × α)) (text_weight model_weight : α) :
    List (String × α) :=
  let tw := max 0 text_weight
  let mw := max 0 model_weight
  let total := tw + mw
  let tw1 := if total ≤ 0 then 1 else tw
  let mw1 := if total ≤ 0 then 0 else mw
  let total1 := if total ≤ 0 then 1 else total
  (unionKeys text_scores model_scores).map (fun label =>
    (label, (getD text_scores label 0 * tw1 + getD model_scores label 0 * mw1) / total1))

/-- First entry attaining the maximal value, the model of Python's
`max(iterable, key=...)` which keeps the first maximum seen. -/
def argmaxFirst {α : Type} [LinearOrderedField α] :
    (String × α) → List (String × α) → String × α
  | best, [] => best
  | best, x :: t => argmaxFirst (if best.2 < x.2 then x else best) t

/-- The source's `decide_label`: restrict to AI-label entries; when none
exist return `(not_ai_ui, 1)`; otherwise take the first maximal AI entry,
return it if its score reaches the threshold, and otherwise fall back to
`(not_ai_ui, scores.get(not_ai_ui, max(0, 1 - best_score)))`. -/
def decide_label {α : Type} [LinearOrderedField α]
    (scores : List (String × α)) (label_threshold : α) : String × α :=
  let ai_candidates := scores.filter (fun p => AI_LABELS.contains p.1)
  match ai_candidates with
  | [] => (NOT_AI_LABEL, 1)
  | c :: rest =>
    let best := argmaxFirst c rest
    if label_threshold ≤ best.2 then best
    else (NOT_AI_LABEL, getD scores NOT_AI_LABEL (max 0 (1 - best.2)))

/-- The five tunables of the adaptive frame-rate controller. -/
structure FpsParams (α : Type) where
  base_fps : α
  high_fps : α
  high_fps_trigger : α
  high_fps_return_threshold : α
  high_fps_hold_seconds : α

/-- The controller state persisted across loop iterations. -/
structure FpsState (α : Type) where
  current_fps : α
  high_mode_until : α

/-- The initial controller state (lines 541-542 of the source):
`high_mode_until = 0.0` and `current_fps = max(1.0, base_fps)`. -/
def initFpsState {α : Type} [LinearOrderedField α] (base_fps : α) : FpsState α :=
  ⟨max 1 base_fps, 0⟩

/-- The smoothed AI evidence peak
`max((scores.get(label, 0.0) for label in AI_LABELS), default=0.0)`. -/
def ai_peak {α : Type} [LinearOrderedField α] (scores : List (String × α)) : α :=
  listMax (AI_LABELS.map (fun label => getD scores label 0))

/-- One iteration of the frame-rate controller (lines 606-614 of the
source): re-arm the hold window when the AI peak reaches the trigger; force
`max(base_fps, high_fps)` while `now` is inside the window; drop to
`base_fps` once the peak has also fallen to the return threshold; otherwise
leave the rate unchanged. -/
def fps_step {α : Type} [LinearOrderedField α]
    (p : FpsParams α) (s : FpsState α) (scores : List (String × α)) (now : α) :
    FpsState α :=
  let ai_max := ai_peak scores
  let hmu := if p.high_fps_trigger ≤ ai_max
    then now + max 0 p.high_fps_hold_seconds
    else s.high_mode_until
  if now < hmu then ⟨max p.base_fps p.high_fps, hmu⟩
  else if ai_max ≤ p.high_fps_return_threshold then ⟨p.base_fps, hmu⟩
  else ⟨s.current_fps, hmu⟩

/-- A run of the frame-rate controller over a list of per-iteration inputs
(smoothed score vector, wall-clock time). -/
def fps_run {α : Type} [LinearOrderedField α]
    (p : FpsParams α) (s0 : FpsState α) (inputs : List (List (String × α) × α)) :
    FpsState α :=
  inputs.foldl (fun s x => fps_step p s x.1 x.2) s0

/-- Every value of a score vector lies in `[0, 1]` (Boolean form). -/
def inBoundsB (v : List (String × ℚ)) : Bool :=
  v.all (fun p => decide ((0 : ℚ) ≤ p.2) && decide (p.2 ≤ 1))

/-- The smoothed state carried across capture-loop iterations: each
iteration fuses its text and model vectors and folds the result into the
state with `smooth_scores`, starting from the empty vector (lines 530 and
602-603 of the source). -/
def loop_smoothed (tw mw d : ℚ)
    (inputs : List (List (String × ℚ) × List (String × ℚ))) : List (String × ℚ) :=
  inputs.foldl (fun st x => smooth_scores st (fuse_scores x.1 x.2 tw mw) d) []

/-- One capture-loop iteration of end-to-end scenario 2 (empty OCR hit
list, no auxiliary model, all tunables at their defaults): score the empty
hit list, fuse with an empty model vector at weights `(0.75, 0.25)`, smooth
with decay `0.65`, and run the frame-rate controller (trigger `0.20`,
return threshold `0.12`, hold `3`) on the new smoothed vector at the given
wall-clock time. -/
noncomputable def scenario2_step (base high : ℝ)
    (st : List (String × ℝ) × FpsState ℝ) (now : ℝ) :
    List (String × ℝ) × FpsState ℝ :=
  let text_scores := score_text_hits [] (7/10)
  let fused := fuse_scores text_scores [] (3/4) (1/4)
  let smoothed := smooth_scores st.1 fused (13/20)
  (smoothed, fps_step ⟨base, high, 1/5, 3/25, 3⟩ st.2 smoothed now)

/-- Scenario 2 run from the initial process state (empty smoothed vector,
`current_fps = max(1, base_fps)`, `high_mode_until = 0`). -/
noncomputable def scenario2_run (base high : ℝ) (times : List ℝ) :
    List (String × ℝ) × FpsState ℝ :=
  times.foldl (scenario2_step base high) ([], initFpsState base)

/-- Closed form of the scenario-2 smoothed vector after `k ≥ 1`
iterations. -/
noncomputable def scenario2_vec (k : ℕ) : List (String × ℝ) :=
  (AI_LABELS ++ [NOT_AI_LABEL]).map (fun l =>
    (l, if l = NOT_AI_LABEL then 3/4 * (1 - (13/20)^k) else 0))

/-- The single OCR hit of end-to-end scenario 1. -/
def scenario1_hits : List OcrHit := [OcrHit.mk "ChatGPT is great" (9/10) (0, 0, 0, 0)]

/-- Closed form of the scenario-2 fused vector (every iteration fuses the
empty-hit text scores with an empty model vector at weights
`(0.75, 0.25)`). -/
noncomputable def scenario2_fused : List (String × ℝ) :=
  (AI_LABELS ++ [NOT_AI_LABEL]).map (fun l =>
    (l, if l = NOT_AI_LABEL then 3/4 else 0))

section Lemmas

variable {α : Type}

/-- Lookup in a key-indexed map of a function hits the function. -/
theorem getD_map_keys (ks : List String) (f : String → α) (l : String) (d : α) :
    getD (ks.map (fun k => (k, f k))) l d = if l ∈ ks then f l else d := by
  induction ks with
  | nil => simp [getD]
  | cons k t ih =>
    by_cases hk : k = l
    · subst hk
      simp [getD, ih]
    · simp [getD, hk, ih, Ne.symm hk]

/-- Lookup misses every entry whose key differs. -/
theorem getD_not_mem_keys (v : List (String × α)) (l : String) (d : α)
    (h : l ∉ v.map Prod.fst) : getD v l d = d := by
  induction v with
  | nil => rfl
  | cons p t ih =>
    simp only [List.map_cons, List.mem_cons] at h
    push_neg at h
    cases p with
    | mk k x =>
      simp only [getD]
      rw [if_neg (Ne.symm h.1), ih h.2]

theorem mem_unionKeys (a b : List (String × α)) (l : String) :
    l ∈ unionKeys a b ↔ l ∈ a.map Prod.fst ∨ l ∈ b.map Prod.fst := by
  simp [unionKeys]

variable [LinearOrderedField α]

/-- With a positive clamped total, `fuse_scores` is the plain weighted
average over the union of the key sets. -/
theorem fuse_scores_of_pos (t m : List (String × α)) (tw mw : α)
    (h0t : 0 ≤ tw) (h0m : 0 ≤ mw) (hpos : 0 < tw + mw) :
    fuse_scores t m tw mw = (unionKeys t m).map (fun l =>
      (l, (getD t l 0 * tw + getD m l 0 * mw) / (tw + mw))) := by
  simp only [fuse_scores, max_eq_right h0t, max_eq_right h0m, if_neg (not_le.mpr hpos)]

/-- With both weights clamped to `0`, the guard forces the weights `(1, 0)`
and `fuse_scores` returns the text score of every union key. -/
theorem fuse_scores_of_nonpos (t m : List (String × α)) (tw mw : α)
    (ht : tw ≤ 0) (hm : mw ≤ 0) :
    fuse_scores t m tw mw = (unionKeys t m).map (fun l => (l, getD t l 0)) := by
  have h1 : max 0 tw = 0 := max_eq_left ht
  have h2 : max 0 mw = 0 := max_eq_left hm
  simp [fuse_scores, h1, h2]

end Lemmas

/-- Claim C4: the Score Fuser is idempotent at extreme weights: with weights
`(1, 0)` every label's fused value equals the text vector's value for that
label (0 when absent), and with weights `(0, 1)` it equals the model
vector's value. -/
theorem fuse_scores_extreme_weights (t m : List (String × ℚ)) (l : String) :
    getD (fuse_scores t m 1 0) l 0 = getD t l 0 ∧
    getD (fuse_scores t m 0 1) l 0 = getD m l 0 := by
  have h1 : fuse_scores t m (1 : ℚ) 0 = (unionKeys t m).map (fun l => (l, getD t l 0)) := by
    rw [fuse_scores_of_pos t m 1 0 (by norm_num) (by norm_num) (by norm_num)]
    refine List.map_congr_left (fun x _ => ?_)
    norm_num
  have h2 : fuse_scores t m (0 : ℚ) 1 = (unionKeys t m).map (fun l => (l, getD m l 0)) := by
    rw [fuse_scores_of_pos t m 0 1 (by norm_num) (by norm_num) (by norm_num)]
    refine List.map_congr_left (fun x _ => ?_)
    norm_num
  constructor
  · rw [h1, getD_map_keys]
    by_cases hmem : l ∈ unionKeys t m
    · rw [if_pos hmem]
    · rw [if_neg hmem]
      have : l ∉ t.map Prod.fst := fun hc =>
        hmem ((mem_unionKeys t m l).mpr (Or.inl hc))
      exact (getD_not_mem_keys t l 0 this).symm
  · rw [h2, getD_map_keys]
    by_cases hmem : l ∈ unionKeys t m
    · rw [if_pos hmem]
    · rw [if_neg hmem]
      have : l ∉ m.map Prod.fst := fun hc =>
        hmem ((mem_unionKeys t m l).mpr (Or.inr hc))
      exact (getD_not_mem_keys m l 0 this).symm

/-- Claim C8: when both weights are nonpositive the zero-weight guard of
`fuse_scores` fires: the result is exactly the result for weights `(1, 0)`
(whose divisor is `1`, so no division by zero occurs), i.e. every label in
the union of the key sets is mapped to the text vector's value for it. -/
theorem fuse_scores_zero_weight_guard (t m : List (String × ℚ)) (tw mw : ℚ)
    (ht : tw ≤ 0) (hm : mw ≤ 0) :
    fuse_scores t m tw mw = fuse_scores t m 1 0 ∧
    fuse_scores t m tw mw = (unionKeys t m).map (fun l => (l, getD t l 0)) := by
  have h0 := fuse_scores_of_nonpos t m tw mw ht hm
  have h1 : fuse_scores t m (1 : ℚ) 0 = (unionKeys t m).map (fun l => (l, getD t l 0)) := by
    rw [fuse_scores_of_pos t m 1 0 (by norm_num) (by norm_num) (by norm_num)]
    refine List.map_congr_left (fun x _ => ?_)
    norm_num
  exact ⟨h0.trans h1.symm, h0⟩

/-- Witness for C8 at a concrete input. -/
theorem fuse_scores_zero_weight_guard_witness :
    (-1 : ℚ) ≤ 0 ∧ (0 : ℚ) ≤ 0 ∧
    (fuse_scores [("chatgpt_ui", (1/2 : ℚ))] [("ai_ui", 1/3)] (-1) 0 =
        fuse_scores [("chatgpt_ui", (1/2 : ℚ))] [("ai_ui", 1/3)] 1 0 ∧
      fuse_scores [("chatgpt_ui", (1/2 : ℚ))] [("ai_ui", 1/3)] (-1) 0 =
        (unionKeys [("chatgpt_ui", (1/2 : ℚ))] [("ai_ui", 1/3)]).map
          (fun l => (l, getD [("chatgpt_ui", (1/2 : ℚ))] l 0))) :=
  ⟨by norm_num, le_refl 0,
    fuse_scores_zero_weight_guard [("chatgpt_ui", (1/2 : ℚ))] [("ai_ui", 1/3)]
      (-1) 0 (by norm_num) (le_refl 0)⟩

/-- Claim C9, counterexample: with `base_fps = 1/2` the initial
`current_fps` is `max(1.0, 1/2) = 1`, not `base_fps`. -/
theorem init_fps_state_not_base :
    ¬ (initFpsState ((1 : ℚ)/2)).current_fps = 1/2 := by
  simp only [initFpsState]
  rw [max_eq_left (by norm_num)]
  norm_num

/-- Claim C9, amended: at process start `high_mode_until = 0` and
`current_fps = max(1, base_fps)`, which equals `base_fps` exactly when
`base_fps ≥ 1`. -/
theorem init_fps_state_spec (b : ℚ) :
    (initFpsState b).high_mode_until = 0 ∧
    (1 ≤ b → (initFpsState b).current_fps = b) :=
  ⟨rfl, fun h => max_eq_right h⟩

section DecideLabel

variable {α : Type} [LinearOrderedField α]

/-- `argmaxFirst` returns one of the candidate entries. -/
theorem argmaxFirst_mem (b : String × α) (l : List (String × α)) :
    argmaxFirst b l ∈ b :: l := by
  induction l generalizing b with
  | nil => simp [argmaxFirst]
  | cons x t ih =>
    simp only [argmaxFirst]
    by_cases hlt : b.2 < x.2
    · rw [if_pos hlt]
      rcases List.mem_cons.mp (ih x) with h | h
      · rw [h]
        simp
      · exact List.mem_cons_of_mem _ (List.mem_cons_of_mem _ h)
    · rw [if_neg hlt]
      rcases List.mem_cons.mp (ih b) with h | h
      · rw [h]
        simp
      · exact List.mem_cons_of_mem _ (List.mem_cons_of_mem _ h)

/-- The value returned by `argmaxFirst` is the running maximum of all the
candidate values. -/
theorem argmaxFirst_snd (b : String × α) (l : List (String × α)) :
    (argmaxFirst b l).2 = (l.map Prod.snd).foldl max b.2 := by
  induction l generalizing b with
  | nil => rfl
  | cons x t ih =>
    simp only [argmaxFirst, List.map_cons, List.foldl_cons]
    rw [ih]
    congr 1
    by_cases hlt : b.2 < x.2
    · rw [if_pos hlt, max_eq_right hlt.le]
    · rw [if_neg hlt, max_eq_left (not_lt.mp hlt)]

/-- The maximum of a nonempty value list is the fold of `max` from its
head. -/
theorem listMax_cons (x : String × α) (t : List (String × α)) :
    listMax ((x :: t).map Prod.snd) = (t.map Prod.snd).foldl max x.2 := rfl

end DecideLabel

/-- Claim C7: the Label Decider contract.  When the vector has no AI-label
entry the result is `(not_ai_ui, 1)`.  Otherwise, when the maximal AI score
reaches the threshold (inclusively), the decider returns one of the AI
entries of the vector carrying exactly that maximal score.  Otherwise it
returns `not_ai_ui` with the vector's own `not_ai_ui` value, defaulting to
`max(0, 1 - best_ai_score)` when that key is absent. -/
theorem decide_label_contract (scores : List (String × ℚ)) (th : ℚ) :
    if scores.filter (fun p => AI_LABELS.contains p.1) = [] then
      decide_label scores th = (NOT_AI_LABEL, 1)
    else if th ≤ listMax ((scores.filter (fun p => AI_LABELS.contains p.1)).map Prod.snd) then
      decide_label scores th ∈ scores.filter (fun p => AI_LABELS.contains p.1) ∧
      (decide_label scores th).2 =
        listMax ((scores.filter (fun p => AI_LABELS.contains p.1)).map Prod.snd)
    else
      decide_label scores th = (NOT_AI_LABEL,
        getD scores NOT_AI_LABEL
          (max 0 (1 - listMax ((scores.filter (fun p => AI_LABELS.contains p.1)).map Prod.snd)))) := by
  cases hf : scores.filter (fun p => AI_LABELS.contains p.1) with
  | nil =>
    rw [if_pos rfl]
    simp only [decide_label, hf]
  | cons c rest =>
    rw [if_neg (List.cons_ne_nil c rest)]
    have hsnd : (argmaxFirst c rest).2 = listMax ((c :: rest).map Prod.snd) := by
      rw [argmaxFirst_snd, listMax_cons]
    have hd : decide_label scores th =
        (if th ≤ (argmaxFirst c rest).2 then argmaxFirst c rest
         else (NOT_AI_LABEL, getD scores NOT_AI_LABEL (max 0 (1 - (argmaxFirst c rest).2)))) := by
      simp only [decide_label, hf]
    rw [hd, hsnd]
    by_cases hth : th ≤ listMax ((c :: rest).map Prod.snd)
    · rw [if_pos hth, if_pos hth]
      exact ⟨argmaxFirst_mem c rest, hsnd⟩
    · rw [if_neg hth, if_neg hth]

/-- Witness for the amended C9 at `base_fps = 4`. -/
theorem init_fps_state_spec_witness :
    (initFpsState (4 : ℚ)).high_mode_until = 0 ∧ (1 : ℚ) ≤ 4 ∧
    (initFpsState (4 : ℚ)).current_fps = 4 :=
  ⟨(init_fps_state_spec 4).1, by norm_num, (init_fps_state_spec 4).2 (by norm_num)⟩

section Bounds

variable {α : Type} [LinearOrderedField α]

theorem inBoundsB_iff (v : List (String × ℚ)) :
    inBoundsB v = true ↔ ∀ p ∈ v, 0 ≤ p.2 ∧ p.2 ≤ 1 := by
  simp [inBoundsB, List.all_eq_true]

theorem getD_zero_bounds (v : List (String × α)) (l : String)
    (h : ∀ p ∈ v, 0 ≤ p.2 ∧ p.2 ≤ 1) : 0 ≤ getD v l 0 ∧ getD v l 0 ≤ 1 := by
  induction v with
  | nil => exact ⟨le_refl 0, zero_le_one⟩
  | cons p t ih =>
    cases p with
    | mk k x =>
      simp only [getD]
      by_cases hk : k = l
      · rw [if_pos hk]
        exact h (k, x) (List.mem_cons_self _ _)
      · rw [if_neg hk]
        exact ih (fun q hq => h q (List.mem_cons_of_mem _ hq))

/-- Fused values are convex combinations of in-range values, hence in
range. -/
theorem fuse_scores_bounds (t m : List (String × α)) (tw mw : α)
    (htw : 0 ≤ tw) (hmw : 0 ≤ mw)
    (ht : ∀ p ∈ t, 0 ≤ p.2 ∧ p.2 ≤ 1) (hm : ∀ p ∈ m, 0 ≤ p.2 ∧ p.2 ≤ 1) :
    ∀ p ∈ fuse_scores t m tw mw, 0 ≤ p.2 ∧ p.2 ≤ 1 := by
  intro p hp
  by_cases hc : 0 < tw + mw
  · rw [fuse_scores_of_pos t m tw mw htw hmw hc] at hp
    obtain ⟨l, _, rfl⟩ := List.mem_map.mp hp
    obtain ⟨ha0, ha1⟩ := getD_zero_bounds t l ht
    obtain ⟨hb0, hb1⟩ := getD_zero_bounds m l hm
    constructor
    · exact div_nonneg (add_nonneg (mul_nonneg ha0 htw) (mul_nonneg hb0 hmw)) hc.le
    · rw [div_le_one hc]
      exact add_le_add (mul_le_of_le_one_left htw ha1) (mul_le_of_le_one_left hmw hb1)
  · have hz : tw = 0 ∧ mw = 0 := by constructor <;> linarith [not_lt.mp hc]
    rw [fuse_scores_of_nonpos t m tw mw hz.1.le hz.2.le] at hp
    obtain ⟨l, _, rfl⟩ := List.mem_map.mp hp
    exact getD_zero_bounds t l ht

/-- Smoothed values are convex combinations (decay clamped to `[0, 0.99]`)
of in-range values, hence in range. -/
theorem smooth_scores_bounds (prev cur : List (String × α)) (d : α)
    (hprev : ∀ p ∈ prev, 0 ≤ p.2 ∧ p.2 ≤ 1) (hcur : ∀ p ∈ cur, 0 ≤ p.2 ∧ p.2 ≤ 1) :
    ∀ p ∈ smooth_scores prev cur d, 0 ≤ p.2 ∧ p.2 ≤ 1 := by
  intro p hp
  simp only [smooth_scores] at hp
  obtain ⟨l, _, rfl⟩ := List.mem_map.mp hp
  have hd0 : (0 : α) ≤ min (max d 0) (99/100) := le_min (le_max_right d 0) (by norm_num)
  have hd1 : min (max d 0) (99/100) ≤ 1 := (min_le_right _ _).trans (by norm_num)
  obtain ⟨ha0, ha1⟩ := getD_zero_bounds prev l hprev
  obtain ⟨hb0, hb1⟩ := getD_zero_bounds cur l hcur
  constructor
  · exact add_nonneg (mul_nonneg ha0 hd0) (mul_nonneg hb0 (by linarith))
  · have h1 : getD prev l 0 * min (max d 0) (99/100) ≤ min (max d 0) (99/100) :=
      mul_le_of_le_one_left hd0 ha1
    have h2 : getD cur l 0 * (1 - min (max d 0) (99/100)) ≤ 1 - min (max d 0) (99/100) :=
      mul_le_of_le_one_left (by linarith) hb1
    linarith

/-- The capture-loop smoothing fold preserves the range invariant. -/
theorem loop_smoothed_fold_bounds (tw mw d : α) (htw : 0 ≤ tw) (hmw : 0 ≤ mw) :
    ∀ (inputs : List (List (String × α) × List (String × α)))
      (st : List (String × α)),
      (∀ p ∈ st, 0 ≤ p.2 ∧ p.2 ≤ 1) →
      (∀ x ∈ inputs, (∀ p ∈ x.1, 0 ≤ p.2 ∧ p.2 ≤ 1) ∧ (∀ p ∈ x.2, 0 ≤ p.2 ∧ p.2 ≤ 1)) →
      ∀ p ∈ inputs.foldl (fun st x => smooth_scores st (fuse_scores x.1 x.2 tw mw) d) st,
        0 ≤ p.2 ∧ p.2 ≤ 1 := by
  intro inputs
  induction inputs with
  | nil => exact fun st hst _ => hst
  | cons x rest ih =>
    intro st hst hins
    simp only [List.foldl_cons]
    refine ih _ ?_ (fun y hy => hins y (List.mem_cons_of_mem _ hy))
    have hx := hins x (List.mem_cons_self _ _)
    exact smooth_scores_bounds st _ d hst (fuse_scores_bounds x.1 x.2 tw mw htw hmw hx.1 hx.2)

end Bounds

/-- Claim C10: implicit score-range preservation.  If every value of the
input vectors lies in `[0, 1]` and the weights are nonnegative, then every
value of the fused vector lies in `[0, 1]`; for every decay (after internal
clamping to `[0, 0.99]`) every value of the smoothed vector lies in
`[0, 1]`; and the smoothed state folded across capture-loop iterations
(starting from the empty vector) always has every value in `[0, 1]`. -/
theorem score_range_preservation (tw mw d : ℚ) (t m prev cur : List (String × ℚ))
    (inputs : List (List (String × ℚ) × List (String × ℚ)))
    (htw : 0 ≤ tw) (hmw : 0 ≤ mw)
    (ht : inBoundsB t = true) (hm : inBoundsB m = true)
    (hprev : inBoundsB prev = true) (hcur : inBoundsB cur = true)
    (hins : ∀ x ∈ inputs, inBoundsB x.1 = true ∧ inBoundsB x.2 = true) :
    inBoundsB (fuse_scores t m tw mw) = true ∧
    inBoundsB (smooth_scores prev cur d) = true ∧
    inBoundsB (loop_smoothed tw mw d inputs) = true := by
  refine ⟨(inBoundsB_iff _).mpr ?_, (inBoundsB_iff _).mpr ?_, (inBoundsB_iff _).mpr ?_⟩
  · exact fuse_scores_bounds t m tw mw htw hmw ((inBoundsB_iff t).mp ht) ((inBoundsB_iff m).mp hm)
  · exact smooth_scores_bounds prev cur d ((inBoundsB_iff prev).mp hprev) ((inBoundsB_iff cur).mp hcur)
  · exact loop_smoothed_fold_bounds tw mw d htw hmw inputs [] (by simp)
      (fun x hx => ⟨(inBoundsB_iff x.1).mp (hins x hx).1, (inBoundsB_iff x.2).mp (hins x hx).2⟩)

/-- Witness for C10 at a concrete input. -/
theorem score_range_preservation_witness :
    (0 : ℚ) ≤ 3/4 ∧ (0 : ℚ) ≤ 1/4 ∧
    inBoundsB [("ai_ui", (1/2 : ℚ))] = true ∧
    inBoundsB ([] : List (String × ℚ)) = true ∧
    inBoundsB [("not_ai_ui", (1 : ℚ))] = true ∧
    (inBoundsB (fuse_scores [("ai_ui", (1/2 : ℚ))] [] (3/4) (1/4)) = true ∧
      inBoundsB (smooth_scores [("not_ai_ui", (1 : ℚ))] [("ai_ui", (1/2 : ℚ))] (13/20)) = true ∧
      inBoundsB (loop_smoothed (3/4) (1/4) (13/20) [([("ai_ui", (1/2 : ℚ))], [])]) = true) := by
  have h1 : inBoundsB [("ai_ui", (1/2 : ℚ))] = true := by norm_num [inBoundsB]
  have h2 : inBoundsB ([] : List (String × ℚ)) = true := rfl
  have h3 : inBoundsB [("not_ai_ui", (1 : ℚ))] = true := by norm_num [inBoundsB]
  refine ⟨by norm_num, by norm_num, h1, h2, h3, ?_⟩
  exact score_range_preservation (3/4) (1/4) (13/20) [("ai_ui", (1/2 : ℚ))] []
    [("not_ai_ui", (1 : ℚ))] [("ai_ui", (1/2 : ℚ))] [([("ai_ui", (1/2 : ℚ))], [])]
    (by norm_num) (by norm_num) h1 h2 h3 h1
    (by intro x hx
        rw [List.mem_singleton] at hx
        subst hx
        exact ⟨h1, h2⟩)

section FrameRate

/-- The hold deadline written by one controller step. -/
theorem fps_step_hmu (p : FpsParams ℚ) (s : FpsState ℚ) (sc : List (String × ℚ)) (now : ℚ) :
    (fps_step p s sc now).high_mode_until =
      if p.high_fps_trigger ≤ ai_peak sc then now + max 0 p.high_fps_hold_seconds
      else s.high_mode_until := by
  simp only [fps_step]
  split_ifs <;> rfl

/-- While `now` is before the (possibly re-armed) deadline, the step forces
the elevated rate. -/
theorem fps_step_fps_of_lt (p : FpsParams ℚ) (s : FpsState ℚ) (sc : List (String × ℚ))
    (now : ℚ) (h : now < (fps_step p s sc now).high_mode_until) :
    (fps_step p s sc now).current_fps = max p.base_fps p.high_fps := by
  rw [fps_step_hmu] at h
  simp only [fps_step]
  rw [if_pos h]

/-- A step taken at a time `≥ t` never moves the deadline below `t + hold`. -/
theorem fps_step_hold_inv (p : FpsParams ℚ) (s : FpsState ℚ) (sc : List (String × ℚ))
    (now t : ℚ)
    (hs : t + p.high_fps_hold_seconds ≤ s.high_mode_until) (hnow : t ≤ now) :
    t + p.high_fps_hold_seconds ≤ (fps_step p s sc now).high_mode_until := by
  rw [fps_step_hmu]
  split_ifs with h
  · have := le_max_right (0 : ℚ) p.high_fps_hold_seconds
    linarith
  · exact hs

/-- A step taken inside the hold window (deadline at least `t + hold`,
time in `[t, t + hold)`) reports the elevated rate. -/
theorem fps_step_hold_high (p : FpsParams ℚ) (s : FpsState ℚ) (sc : List (String × ℚ))
    (now t : ℚ) (hs : t + p.high_fps_hold_seconds ≤ s.high_mode_until)
    (hnow : t ≤ now) (hwin : now < t + p.high_fps_hold_seconds) :
    (fps_step p s sc now).current_fps = max p.base_fps p.high_fps := by
  apply fps_step_fps_of_lt
  rw [fps_step_hmu]
  split_ifs with h
  · have := le_max_right (0 : ℚ) p.high_fps_hold_seconds
    linarith
  · linarith

/-- A triggering step re-arms the deadline to exactly `now + hold`. -/
theorem fps_step_trigger_hmu (p : FpsParams ℚ) (s : FpsState ℚ) (sc : List (String × ℚ))
    (now : ℚ) (hhold : 0 ≤ p.high_fps_hold_seconds)
    (htrig : p.high_fps_trigger ≤ ai_peak sc) :
    (fps_step p s sc now).high_mode_until = now + p.high_fps_hold_seconds := by
  rw [fps_step_hmu, if_pos htrig, max_eq_right hhold]

/-- A triggering step with a strictly positive hold reports the elevated
rate immediately. -/
theorem fps_step_trigger_high (p : FpsParams ℚ) (s : FpsState ℚ) (sc : List (String × ℚ))
    (now : ℚ) (hhold : 0 ≤ p.high_fps_hold_seconds)
    (htrig : p.high_fps_trigger ≤ ai_peak sc)
    (hpos : now < now + p.high_fps_hold_seconds) :
    (fps_step p s sc now).current_fps = max p.base_fps p.high_fps := by
  apply fps_step_fps_of_lt
  rw [fps_step_trigger_hmu p s sc now hhold htrig]
  exact hpos

theorem fps_run_cons (p : FpsParams ℚ) (s : FpsState ℚ)
    (x : List (String × ℚ) × ℚ) (l : List (List (String × ℚ) × ℚ)) :
    fps_run p s (x :: l) = fps_run p (fps_step p s x.1 x.2) l := rfl

theorem fps_run_singleton (p : FpsParams ℚ) (s : FpsState ℚ)
    (x : List (String × ℚ) × ℚ) :
    fps_run p s [x] = fps_step p s x.1 x.2 := rfl

theorem fps_run_append (p : FpsParams ℚ) (s : FpsState ℚ)
    (a b : List (List (String × ℚ) × ℚ)) :
    fps_run p s (a ++ b) = fps_run p (fps_run p s a) b := by
  simp [fps_run, List.foldl_append]

/-- The deadline invariant survives a whole run whose times stay `≥ t`. -/
theorem fps_run_hmu_inv (p : FpsParams ℚ) (t : ℚ) :
    ∀ (l : List (List (String × ℚ) × ℚ)) (s : FpsState ℚ),
      t + p.high_fps_hold_seconds ≤ s.high_mode_until →
      (∀ x ∈ l, t ≤ x.2) →
      t + p.high_fps_hold_seconds ≤ (fps_run p s l).high_mode_until := by
  intro l
  induction l with
  | nil => exact fun s hs _ => hs
  | cons x rest ih =>
    intro s hs hmem
    rw [fps_run_cons]
    exact ih _ (fps_step_hold_inv p s x.1 x.2 t hs (hmem x (List.mem_cons_self _ _)))
      (fun z hz => hmem z (List.mem_cons_of_mem _ hz))

/-- Non-decreasing iteration times, read off the pairwise hypothesis. -/
theorem pairwise_snd_le (inputs : List (List (String × ℚ) × ℚ))
    (hmono : (inputs.map Prod.snd).Pairwise (· ≤ ·)) (a b : ℕ)
    (ha : a < inputs.length) (hb : b < inputs.length) (hab : a < b) :
    inputs[a].2 ≤ inputs[b].2 := by
  rw [List.pairwise_iff_getElem] at hmono
  have := hmono a b (by simpa using ha) (by simpa using hb) hab
  simpa using this

end FrameRate

/-- Claim C1: frame-rate hysteresis hold.  For every controller run with
`high_fps_hold_seconds ≥ 0` and non-decreasing wall-clock times, if the
smoothed AI peak at iteration `i` (time `t`) reaches `high_fps_trigger`,
then after every iteration `j ≥ i` whose time is still inside the window
`[t, t + high_fps_hold_seconds)` the controller reports
`current_fps = max(base_fps, high_fps)`, regardless of the AI peaks seen in
between (they may drop to 0 immediately after `t`). -/
theorem frame_rate_hysteresis_hold (p : FpsParams ℚ) (s0 : FpsState ℚ)
    (inputs : List (List (String × ℚ) × ℚ)) (i j : ℕ)
    (hhold : 0 ≤ p.high_fps_hold_seconds)
    (hmono : (inputs.map Prod.snd).Pairwise (· ≤ ·))
    (hi : i < inputs.length) (hj : j < inputs.length) (hij : i ≤ j)
    (htrig : p.high_fps_trigger ≤ ai_peak inputs[i].1)
    (hwin : inputs[j].2 < inputs[i].2 + p.high_fps_hold_seconds) :
    (fps_run p s0 (inputs.take (j+1))).current_fps = max p.base_fps p.high_fps := by
  have htj : inputs.take (j+1) = inputs.take j ++ [inputs[j]] :=
    (List.take_concat_get' inputs j hj).symm
  rw [htj, fps_run_append, fps_run_singleton]
  rcases Nat.lt_or_ge i j with hlt | hge
  · have hdec : inputs.take j = inputs.take i ++
        (inputs[i] :: (inputs.drop (i+1)).take (j - (i+1))) := by
      have h1 : inputs.take i ++ (inputs.take j).drop i = inputs.take j := by
        have h0 := List.take_append_drop i (inputs.take j)
        rwa [List.take_take, min_eq_left (le_of_lt hlt)] at h0
      have h2 : (inputs.take j).drop i =
          inputs[i] :: (inputs.drop (i+1)).take (j - (i+1)) := by
        rw [List.drop_take, List.drop_eq_getElem_cons hi,
          show j - i = (j - (i+1)) + 1 by omega, List.take_succ_cons]
      rw [← h1, h2]
    rw [hdec, fps_run_append, fps_run_cons]
    apply fps_step_hold_high p _ inputs[j].1 inputs[j].2 inputs[i].2 _
      (pairwise_snd_le inputs hmono i j hi hj hlt) hwin
    apply fps_run_hmu_inv p inputs[i].2
    · rw [fps_step_trigger_hmu p _ inputs[i].1 inputs[i].2 hhold htrig]
    · intro x hx
      have hx2 := List.mem_of_mem_take hx
      obtain ⟨⟨k, hk⟩, hxk⟩ := List.mem_iff_get.mp hx2
      rw [List.get_eq_getElem] at hxk
      have hk2 : (i+1) + k < inputs.length := by
        have := List.length_drop (i+1) inputs ▸ hk
        omega
      rw [List.getElem_drop inputs] at hxk
      rw [← hxk]
      exact pairwise_snd_le inputs hmono i ((i+1)+k) hi hk2 (by omega)
  · have hij2 : i = j := le_antisymm hij hge
    subst hij2
    exact fps_step_trigger_high p _ inputs[i].1 inputs[i].2 hhold htrig (by linarith)

/-- Witness for C1: a concrete two-iteration run (trigger at time 10 with
hold 3, AI evidence gone at time 12) still reports the elevated rate at
time 12. -/
theorem frame_rate_hysteresis_hold_witness :
    (0 : ℚ) ≤ (FpsParams.mk (4 : ℚ) 8 (1/5) (3/25) 3).high_fps_hold_seconds ∧
    (([([("ai_ui", (1/2 : ℚ))], (10 : ℚ)), ([], 12)].map Prod.snd).Pairwise (· ≤ ·)) ∧
    (FpsParams.mk (4 : ℚ) 8 (1/5) (3/25) 3).high_fps_trigger ≤
      ai_peak [("ai_ui", (1/2 : ℚ))] ∧
    (12 : ℚ) < 10 + (FpsParams.mk (4 : ℚ) 8 (1/5) (3/25) 3).high_fps_hold_seconds ∧
    (fps_run (FpsParams.mk (4 : ℚ) 8 (1/5) (3/25) 3) (FpsState.mk 4 0)
        ([([("ai_ui", (1/2 : ℚ))], (10 : ℚ)), ([], 12)].take 2)).current_fps =
      max (FpsParams.mk (4 : ℚ) 8 (1/5) (3/25) 3).base_fps
        (FpsParams.mk (4 : ℚ) 8 (1/5) (3/25) 3).high_fps := by
  have htr : (FpsParams.mk (4 : ℚ) 8 (1/5) (3/25) 3).high_fps_trigger ≤
      ai_peak [("ai_ui", (1/2 : ℚ))] := by
    simp +decide [ai_peak, AI_LABELS, getD, listMax]
    norm_num
  refine ⟨by norm_num, by norm_num [List.pairwise_cons], htr, by norm_num, ?_⟩
  exact frame_rate_hysteresis_hold (FpsParams.mk (4 : ℚ) 8 (1/5) (3/25) 3)
    (FpsState.mk 4 0) [([("ai_ui", (1/2 : ℚ))], (10 : ℚ)), ([], 12)] 0 1
    (by norm_num) (by norm_num [List.pairwise_cons]) (by norm_num) (by norm_num)
    (by norm_num) htr (by norm_num)

section TextScores

variable {α : Type}

/-- Lookup in a key-indexed map followed by a tail hits the function on a
present key. -/
theorem getD_map_append_mem (ks : List String) (f : String → α) (l : String)
    (d : α) (rest : List (String × α)) (h : l ∈ ks) :
    getD ((ks.map (fun k => (k, f k))) ++ rest) l d = f l := by
  induction ks with
  | nil => exact absurd h (List.not_mem_nil l)
  | cons k t ih =>
    by_cases hk : k = l
    · subst hk
      simp [getD]
    · rcases List.mem_cons.mp h with h1 | h2
      · exact absurd h1.symm hk
      · simpa [getD, hk] using ih h2

/-- Lookup in a key-indexed map followed by a tail skips absent keys. -/
theorem getD_map_append_not_mem (ks : List String) (f : String → α) (l : String)
    (d : α) (rest : List (String × α)) (h : l ∉ ks) :
    getD ((ks.map (fun k => (k, f k))) ++ rest) l d = getD rest l d := by
  induction ks with
  | nil => rfl
  | cons k t ih =>
    have hk : k ≠ l := fun he => h (he ▸ List.mem_cons_self k t)
    simpa [getD, hk] using ih (fun hm => h (List.mem_cons_of_mem k hm))

/-- The keyword weight is nonnegative. -/
theorem kw_weight_nonneg (keyNorm : List Char) : 0 ≤ kw_weight keyNorm := by
  refine le_min zero_le_one ?_
  positivity

/-- A hit's contribution to a label factors as its confidence times a
nonnegative, text-and-label-determined weight sum. -/
theorem hit_contrib_factor (h : OcrHit) (label : String) :
    hit_contrib h label = h.confidence *
      (if normalize_text h.text = [] then 0
       else ((keywordsFor label).map (fun kw =>
         if normalize_text kw ≠ [] ∧ normalize_text kw <:+: normalize_text h.text then
           kw_weight (normalize_text kw) else 0)).sum) := by
  simp only [hit_contrib]
  split_ifs with hn
  · rw [mul_zero]
  · rw [← List.sum_map_mul_left]
    refine congrArg List.sum (List.map_congr_left ?_)
    intro kw _
    split_ifs <;> simp

/-- The factored weight sum is nonnegative. -/
theorem text_factor_nonneg (t : String) (label : String) :
    0 ≤ (if normalize_text t = [] then (0 : ℚ)
      else ((keywordsFor label).map (fun kw =>
        if normalize_text kw ≠ [] ∧ normalize_text kw <:+: normalize_text t then
          kw_weight (normalize_text kw) else 0)).sum) := by
  split_ifs
  · exact le_refl 0
  · refine List.sum_nonneg ?_
    intro x hx
    obtain ⟨kw, _, rfl⟩ := List.mem_map.mp hx
    split_ifs
    · exact kw_weight_nonneg _
    · exact le_refl 0

/-- Contribution is monotone in the hit's confidence (same text). -/
theorem hit_contrib_mono (t : String) (c c' : ℚ) (b b' : ℤ × ℤ × ℤ × ℤ)
    (label : String) (hcc : c ≤ c') :
    hit_contrib (OcrHit.mk t c b) label ≤ hit_contrib (OcrHit.mk t c' b') label := by
  rw [hit_contrib_factor, hit_contrib_factor]
  exact mul_le_mul_of_nonneg_right hcc (text_factor_nonneg t label)

/-- Contribution of a hit with nonnegative confidence is nonnegative. -/
theorem hit_contrib_nonneg (h : OcrHit) (label : String) (hc : 0 ≤ h.confidence) :
    0 ≤ hit_contrib h label := by
  rw [hit_contrib_factor]
  exact mul_nonneg hc (text_factor_nonneg h.text label)

theorem raw_score_append (hits1 hits2 : List OcrHit) (label : String) :
    raw_score (hits1 ++ hits2) label = raw_score hits1 label + raw_score hits2 label := by
  simp [raw_score]

/-- The saturating transform is monotone in the raw score. -/
theorem tscoreVal_mono (r1 r2 gain : ℚ) (h : r1 ≤ r2) :
    tscoreVal r1 gain ≤ tscoreVal r2 gain := by
  simp only [tscoreVal]
  have hg : (0 : ℚ) ≤ max (1/20) gain := le_trans (by norm_num) (le_max_left _ _)
  have hq : (max 0 r1) * max (1/20) gain ≤ (max 0 r2) * max (1/20) gain :=
    mul_le_mul_of_nonneg_right (max_le_max (le_refl 0) h) hg
  have hc : ((max 0 r1 * max (1/20) gain : ℚ) : ℝ) ≤ ((max 0 r2 * max (1/20) gain : ℚ) : ℝ) :=
    Rat.cast_le.mpr hq
  have := Real.exp_le_exp.mpr (neg_le_neg hc)
  linarith

/-- The saturating transform always lands in `[0, 1)`. -/
theorem tscoreVal_bounds (r gain : ℚ) : 0 ≤ tscoreVal r gain ∧ tscoreVal r gain < 1 := by
  simp only [tscoreVal]
  have hg : (0 : ℚ) ≤ max (1/20) gain := le_trans (by norm_num) (le_max_left _ _)
  have hq : (0 : ℚ) ≤ max 0 r * max (1/20) gain := mul_nonneg (le_max_left 0 r) hg
  have hc : (0 : ℝ) ≤ ((max 0 r * max (1/20) gain : ℚ) : ℝ) := by
    exact_mod_cast hq
  have h1 : Real.exp (-((max 0 r * max (1/20) gain : ℚ) : ℝ)) ≤ 1 := by
    rw [← Real.exp_zero]
    exact Real.exp_le_exp.mpr (by linarith)
  have h2 : 0 < Real.exp (-((max 0 r * max (1/20) gain : ℚ) : ℝ)) := Real.exp_pos _
  constructor <;> linarith

/-- The AI-label entries of `score_text_hits` carry the saturating
transform of the accumulated raw score. -/
theorem getD_score_text_hits_ai (hits : List OcrHit) (gain : ℚ) (l : String)
    (h : l ∈ AI_LABELS) :
    getD (score_text_hits hits gain) l 0 = tscoreVal (raw_score hits l) gain := by
  simp only [score_text_hits]
  exact getD_map_append_mem AI_LABELS _ l 0 _ h

/-- The `not_ai_ui` entry of `score_text_hits` is the clamped complement of
the maximal AI score. -/
theorem getD_score_text_hits_notai (hits : List OcrHit) (gain : ℚ) :
    getD (score_text_hits hits gain) NOT_AI_LABEL 0 =
      max 0 (1 - listMax (AI_LABELS.map (fun l => tscoreVal (raw_score hits l) gain))) := by
  simp only [score_text_hits]
  rw [getD_map_append_not_mem AI_LABELS _ NOT_AI_LABEL 0 _ (by decide)]
  simp [getD, List.map_map, Function.comp_def]

/-- On the empty hit list every AI label scores `0` and `not_ai_ui` scores
`1`. -/
theorem score_text_hits_nil (gain : ℚ) :
    score_text_hits [] gain = AI_LABELS.map (fun l => (l, (0 : ℝ))) ++ [(NOT_AI_LABEL, 1)] := by
  have hzero : ∀ l : String, tscoreVal (raw_score [] l) gain = 0 := by
    intro l
    simp [tscoreVal, raw_score, Real.exp_zero]
  simp only [score_text_hits]
  rw [List.map_congr_left (fun l _ => by rw [hzero l] :
    ∀ l ∈ AI_LABELS, (l, tscoreVal (raw_score [] l) gain) = (l, (0 : ℝ)))]
  have hmax : listMax ((AI_LABELS.map (fun l => (l, (0 : ℝ)))).map Prod.snd) = 0 := by
    simp [AI_LABELS, listMax]
  rw [hmax]
  norm_num

end TextScores

/-- Claim C5: text-score vector invariant.  For every hit list and keyword
gain, the keys of `score_text_hits` are exactly the closed label set
(`AI_LABELS` then `not_ai_ui`); the `not_ai_ui` value is
`max(0, 1 - max AI score)`; and on the empty hit list every AI score is `0`
and `not_ai_ui` is `1`. -/
theorem text_scores_invariant (hits : List OcrHit) (gain : ℚ) :
    (score_text_hits hits gain).map Prod.fst = AI_LABELS ++ [NOT_AI_LABEL] ∧
    getD (score_text_hits hits gain) NOT_AI_LABEL 0 =
      max 0 (1 - listMax (AI_LABELS.map (fun l => getD (score_text_hits hits gain) l 0))) ∧
    score_text_hits [] gain = AI_LABELS.map (fun l => (l, 0)) ++ [(NOT_AI_LABEL, 1)] := by
  refine ⟨?_, ?_, ?_⟩
  · simp [score_text_hits, List.map_map, Function.comp_def]
  · rw [getD_score_text_hits_notai hits gain]
    rw [List.map_congr_left (fun l hl => (getD_score_text_hits_ai hits gain l hl).symm)]
  · exact score_text_hits_nil gain

/-- Claim C6: text-score monotonicity and range.  For every hit list and
keyword gain, the score of an AI label lies in `[0, 1)`; it does not
decrease when a single hit's confidence increases (same text); and it does
not decrease when an additional hit with nonnegative confidence (in
particular any hit matching the label's keywords, whose confidence is a
clamped OCR confidence in `[0, 1]`) is appended. -/
theorem text_scores_monotone_range (gain : ℚ) (l : String)
    (hits pre post : List OcrHit) (t : String) (c c' : ℚ)
    (b b' : ℤ × ℤ × ℤ × ℤ) (h : OcrHit)
    (hl : l ∈ AI_LABELS) (hcc : c ≤ c') (hhc : 0 ≤ h.confidence) :
    (0 ≤ getD (score_text_hits hits gain) l 0 ∧
      getD (score_text_hits hits gain) l 0 < 1) ∧
    getD (score_text_hits (pre ++ OcrHit.mk t c b :: post) gain) l 0 ≤
      getD (score_text_hits (pre ++ OcrHit.mk t c' b' :: post) gain) l 0 ∧
    getD (score_text_hits hits gain) l 0 ≤
      getD (score_text_hits (hits ++ [h]) gain) l 0 := by
  rw [getD_score_text_hits_ai hits gain l hl,
    getD_score_text_hits_ai (pre ++ OcrHit.mk t c b :: post) gain l hl,
    getD_score_text_hits_ai (pre ++ OcrHit.mk t c' b' :: post) gain l hl,
    getD_score_text_hits_ai (hits ++ [h]) gain l hl]
  refine ⟨tscoreVal_bounds (raw_score hits l) gain, ?_, ?_⟩
  · refine tscoreVal_mono _ _ gain ?_
    have hmono := hit_contrib_mono t c c' b b' l hcc
    simp only [raw_score, List.map_append, List.sum_append, List.map_cons, List.sum_cons]
    linarith
  · refine tscoreVal_mono _ _ gain ?_
    rw [raw_score_append]
    have := hit_contrib_nonneg h l hhc
    simp only [raw_score, List.map_cons, List.map_nil, List.sum_cons, List.sum_nil]
    linarith

/-- Witness for C6 at a concrete input. -/
theorem text_scores_monotone_range_witness :
    "chatgpt_ui" ∈ AI_LABELS ∧ (1/2 : ℚ) ≤ 3/4 ∧
    (0 : ℚ) ≤ (OcrHit.mk "ChatGPT" (1/2) (0, 0, 0, 0)).confidence ∧
    ((0 ≤ getD (score_text_hits [] (7/10)) "chatgpt_ui" 0 ∧
        getD (score_text_hits [] (7/10)) "chatgpt_ui" 0 < 1) ∧
      getD (score_text_hits ([] ++ OcrHit.mk "x" (1/2) (0, 0, 0, 0) :: []) (7/10)) "chatgpt_ui" 0 ≤
        getD (score_text_hits ([] ++ OcrHit.mk "x" (3/4) (0, 0, 0, 0) :: []) (7/10)) "chatgpt_ui" 0 ∧
      getD (score_text_hits [] (7/10)) "chatgpt_ui" 0 ≤
        getD (score_text_hits ([] ++ [OcrHit.mk "ChatGPT" (1/2) (0, 0, 0, 0)]) (7/10)) "chatgpt_ui" 0) := by
  refine ⟨by decide, by norm_num, by norm_num, ?_⟩
  exact text_scores_monotone_range (7/10) "chatgpt_ui" [] [] [] "x" (1/2) (3/4)
    (0, 0, 0, 0) (0, 0, 0, 0) (OcrHit.mk "ChatGPT" (1/2) (0, 0, 0, 0))
    (by decide) (by norm_num) (by norm_num)

section ExpBounds

/-- Upper bound on `exp(-y)` through `exp(y/n) ≥ 1 + y/n`. -/
theorem exp_neg_le_pow (y : ℝ) (n : ℕ) (hy : 0 ≤ y) (hn : 0 < n) :
    Real.exp (-y) ≤ ((1 + y / n)⁻¹) ^ n := by
  have hn' : (0:ℝ) < (n:ℝ) := Nat.cast_pos.mpr hn
  have hpos : (0:ℝ) < 1 + y / n := by positivity
  have h1 : 1 + y / n ≤ Real.exp (y / n) := by
    have := Real.add_one_le_exp (y / n)
    linarith
  have h2 : Real.exp (-(y/n)) ≤ (1 + y/n)⁻¹ := by
    rw [Real.exp_neg]
    exact inv_anti₀ hpos h1
  have h3 : Real.exp (-y) = (Real.exp (-(y/n)))^n := by
    rw [← Real.exp_nat_mul]
    congr 1
    field_simp
    ring
  rw [h3]
  exact pow_le_pow_left₀ (Real.exp_pos _).le h2 n

/-- Lower bound on `exp(-y)` through `exp(-y/n) ≥ 1 - y/n`. -/
theorem pow_le_exp_neg (y : ℝ) (n : ℕ) (h1 : 0 ≤ 1 - y / n) (hn : 0 < n) :
    (1 - y / n) ^ n ≤ Real.exp (-y) := by
  have hn' : (0:ℝ) < (n:ℝ) := Nat.cast_pos.mpr hn
  have h2 : 1 - y/n ≤ Real.exp (-(y/n)) := by
    have := Real.add_one_le_exp (-(y/n))
    linarith
  have h3 : Real.exp (-y) = (Real.exp (-(y/n)))^n := by
    rw [← Real.exp_nat_mul]
    congr 1
    field_simp
    ring
  rw [h3]
  exact pow_le_pow_left₀ h1 h2 n

theorem scenario1_exp_ub : Real.exp (-(3969/8000 : ℝ)) ≤ 614/1000 := by
  have h := exp_neg_le_pow (3969/8000) 16 (by norm_num) (by norm_num)
  refine h.trans ?_
  norm_num

theorem scenario1_exp_lb : (604/1000 : ℝ) ≤ Real.exp (-(3969/8000 : ℝ)) := by
  have h := pow_le_exp_neg (3969/8000) 16 (by norm_num) (by norm_num)
  refine le_trans ?_ h
  norm_num

end ExpBounds

section Scenario1

theorem tscoreVal_zero (gain : ℚ) : tscoreVal 0 gain = 0 := by
  simp [tscoreVal, Real.exp_zero]

/-- The only keyword matching the scenario-1 hit is `"chatgpt"` with weight
`min(1, 0.35 + 7/16) = 63/80`, so the raw chatgpt score is
`0.9 * 63/80 = 567/800`. -/
theorem scenario1_raw_chatgpt : raw_score scenario1_hits "chatgpt_ui" = 567/800 := by
  simp +decide [scenario1_hits, raw_score, hit_contrib, keywordsFor, kw_weight, getD]
  rw [show (normalize_text "chatgpt").length = 7 from by decide]
  norm_num [min_def]

/-- No keyword of any other AI label matches the scenario-1 hit. -/
theorem scenario1_raw_others : ∀ l ∈ AI_LABELS.tail, raw_score scenario1_hits l = 0 := by
  simp +decide [AI_LABELS, scenario1_hits, raw_score, hit_contrib, keywordsFor, kw_weight, getD]

theorem scenario1_chatgpt_val :
    getD (score_text_hits scenario1_hits (7/10)) "chatgpt_ui" 0 =
      1 - Real.exp (-(3969/8000 : ℝ)) := by
  rw [getD_score_text_hits_ai scenario1_hits (7/10) "chatgpt_ui" (by decide),
    scenario1_raw_chatgpt]
  simp only [tscoreVal]
  rw [max_eq_right (by norm_num : (0:ℚ) ≤ 567/800),
    max_eq_right (by norm_num : (1/20:ℚ) ≤ 7/10)]
  norm_num

theorem scenario1_ai_map :
    AI_LABELS.map (fun l => tscoreVal (raw_score scenario1_hits l) (7/10)) =
      (1 - Real.exp (-(3969/8000 : ℝ))) :: List.replicate 11 0 := by
  have hz : ∀ l : String, raw_score scenario1_hits l = 0 →
      tscoreVal (raw_score scenario1_hits l) (7/10) = 0 := fun l hl => by
    rw [hl]
    exact tscoreVal_zero _
  have hc : tscoreVal (raw_score scenario1_hits "chatgpt_ui") (7/10) =
      1 - Real.exp (-(3969/8000 : ℝ)) := by
    rw [scenario1_raw_chatgpt]
    simp only [tscoreVal]
    rw [max_eq_right (by norm_num : (0:ℚ) ≤ 567/800),
      max_eq_right (by norm_num : (1/20:ℚ) ≤ 7/10)]
    norm_num
  simp only [AI_LABELS, List.map_cons, List.map_nil]
  rw [hc, hz "claude_ui" (scenario1_raw_others _ (by decide)),
    hz "gemini_ui" (scenario1_raw_others _ (by decide)),
    hz "copilot_ui" (scenario1_raw_others _ (by decide)),
    hz "perplexity_ui" (scenario1_raw_others _ (by decide)),
    hz "deepseek_ui" (scenario1_raw_others _ (by decide)),
    hz "poe_ui" (scenario1_raw_others _ (by decide)),
    hz "grok_ui" (scenario1_raw_others _ (by decide)),
    hz "qwen_ui" (scenario1_raw_others _ (by decide)),
    hz "mistral_ui" (scenario1_raw_others _ (by decide)),
    hz "meta_ai_ui" (scenario1_raw_others _ (by decide)),
    hz "ai_ui" (scenario1_raw_others _ (by decide))]
  rfl

theorem scenario1_not_ai_val :
    getD (score_text_hits scenario1_hits (7/10)) NOT_AI_LABEL 0 =
      Real.exp (-(3969/8000 : ℝ)) := by
  rw [getD_score_text_hits_notai, scenario1_ai_map]
  have hE1 : Real.exp (-(3969/8000 : ℝ)) ≤ 1 := scenario1_exp_ub.trans (by norm_num)
  have hv0 : (0:ℝ) ≤ 1 - Real.exp (-(3969/8000 : ℝ)) := by linarith
  have hlm : listMax ((1 - Real.exp (-(3969/8000 : ℝ))) :: List.replicate 11 0) =
      1 - Real.exp (-(3969/8000 : ℝ)) := by
    show (List.replicate 11 (0:ℝ)).foldl max (1 - Real.exp (-(3969/8000 : ℝ))) = _
    simp [List.replicate, max_eq_left hv0]
  rw [hlm, show (1:ℝ) - (1 - Real.exp (-(3969/8000 : ℝ))) = Real.exp (-(3969/8000 : ℝ)) by ring]
  exact max_eq_right (Real.exp_pos _).le

end Scenario1

/-- Claim C2, counterexample: for the scenario-1 hit list and
`keyword_gain = 0.7`, the chatgpt score is not within `0.02` of the claimed
`0.353` (it lies in `[0.386, 0.396]`), and the `not_ai_ui` score is not
within `0.02` of the claimed `0.647` (it lies in `[0.604, 0.614]`). -/
theorem scenario1_not_claimed :
    ¬(|getD (score_text_hits scenario1_hits (7/10)) "chatgpt_ui" 0 - 353/1000| ≤ 2/100 ∧
      |getD (score_text_hits scenario1_hits (7/10)) NOT_AI_LABEL 0 - 647/1000| ≤ 2/100) := by
  rw [scenario1_chatgpt_val, scenario1_not_ai_val]
  rintro ⟨h1, _⟩
  rw [abs_le] at h1
  have := scenario1_exp_ub
  linarith [h1.2]

/-- Claim C2, amended: for the single hit ("ChatGPT is great", 0.9) and
`keyword_gain = 0.7`, the matched keyword weight is
`min(1, 0.35 + 7/16) = 0.7875` (not 0.69), the raw chatgpt score is
`0.9 * 0.7875 = 0.70875`, and `text_scores[chatgpt_ui] =
1 - exp(-0.70875 * 0.7) ≈ 0.391` with `text_scores[not_ai_ui] ≈ 0.609`. -/
theorem scenario1_spec :
    kw_weight (normalize_text "chatgpt") = 63/80 ∧
    raw_score scenario1_hits "chatgpt_ui" = 567/800 ∧
    |getD (score_text_hits scenario1_hits (7/10)) "chatgpt_ui" 0 - 391/1000| ≤ 1/100 ∧
    |getD (score_text_hits scenario1_hits (7/10)) NOT_AI_LABEL 0 - 609/1000| ≤ 1/100 := by
  refine ⟨?_, scenario1_raw_chatgpt, ?_, ?_⟩
  · simp only [kw_weight]
    rw [show (normalize_text "chatgpt").length = 7 from by decide]
    norm_num [min_def]
  · rw [scenario1_chatgpt_val, abs_le]
    have h1 := scenario1_exp_ub
    have h2 := scenario1_exp_lb
    constructor <;> linarith
  · rw [scenario1_not_ai_val, abs_le]
    have h1 := scenario1_exp_ub
    have h2 := scenario1_exp_lb
    constructor <;> linarith



theorem scenario2_fuse_eq (gain : ℚ) :
    fuse_scores (score_text_hits [] gain) ([] : List (String × ℝ)) (3/4) (1/4) =
      scenario2_fused := by
  rw [score_text_hits_nil gain,
    fuse_scores_of_pos _ _ (3/4) (1/4) (by norm_num) (by norm_num) (by norm_num)]
  have hkeys : unionKeys (AI_LABELS.map (fun l => (l, (0 : ℝ))) ++ [(NOT_AI_LABEL, 1)])
      ([] : List (String × ℝ)) = AI_LABELS ++ [NOT_AI_LABEL] := by
    simp only [unionKeys, List.map_append, List.map_map, List.map_nil, List.append_nil]
    simp [Function.comp_def, NOT_AI_LABEL]
    decide
  rw [hkeys]
  simp only [scenario2_fused]
  refine List.map_congr_left ?_
  intro l hl
  rcases List.mem_append.mp hl with hA | hN
  · have hne : l ≠ NOT_AI_LABEL := fun he => by
      rw [he] at hA
      exact absurd hA (by decide)
    rw [getD_map_append_mem AI_LABELS _ l 0 _ hA, if_neg hne]
    norm_num [getD]
  · rw [List.mem_singleton] at hN
    subst hN
    rw [getD_map_append_not_mem AI_LABELS _ _ 0 _ (by decide), if_pos rfl]
    norm_num [getD, NOT_AI_LABEL]

theorem scenario2_vec_keys_aux :
    (scenario2_fused.map Prod.fst) = AI_LABELS ++ [NOT_AI_LABEL] := by
  simp [scenario2_fused, List.map_map, Function.comp_def]

theorem scenario2_smooth_init :
    smooth_scores ([] : List (String × ℝ)) scenario2_fused (13/20) = scenario2_vec 1 := by
  simp only [smooth_scores, scenario2_fused, scenario2_vec]
  rw [show min (max (13/20 : ℝ) 0) (99/100) = 13/20 by
    rw [max_eq_left (by norm_num), min_eq_left (by norm_num)]]
  have hkeys : unionKeys ([] : List (String × ℝ))
      ((AI_LABELS ++ [NOT_AI_LABEL]).map (fun l => (l, if l = NOT_AI_LABEL then (3/4 : ℝ) else 0))) =
      AI_LABELS ++ [NOT_AI_LABEL] := by
    simp only [unionKeys, List.map_nil, List.nil_append, List.map_map]
    simp only [Function.comp_def]
    decide
  rw [hkeys]
  refine List.map_congr_left ?_
  intro l hl
  rw [getD_map_keys (AI_LABELS ++ [NOT_AI_LABEL]) _ l 0, if_pos hl]
  simp only [getD]
  split_ifs <;> norm_num

theorem scenario2_smooth_step (k : ℕ) :
    smooth_scores (scenario2_vec k) scenario2_fused (13/20) = scenario2_vec (k+1) := by
  simp only [smooth_scores, scenario2_fused, scenario2_vec]
  rw [show min (max (13/20 : ℝ) 0) (99/100) = 13/20 by
    rw [max_eq_left (by norm_num), min_eq_left (by norm_num)]]
  have hkeys : unionKeys
      ((AI_LABELS ++ [NOT_AI_LABEL]).map (fun l => (l, if l = NOT_AI_LABEL then (3/4 : ℝ) * (1 - (13/20)^k) else 0)))
      ((AI_LABELS ++ [NOT_AI_LABEL]).map (fun l => (l, if l = NOT_AI_LABEL then (3/4 : ℝ) else 0))) =
      AI_LABELS ++ [NOT_AI_LABEL] := by
    simp only [unionKeys, List.map_map]
    simp only [Function.comp_def]
    decide
  rw [hkeys]
  refine List.map_congr_left ?_
  intro l hl
  rw [getD_map_keys (AI_LABELS ++ [NOT_AI_LABEL]) _ l 0, if_pos hl,
    getD_map_keys (AI_LABELS ++ [NOT_AI_LABEL]) _ l 0, if_pos hl]
  refine Prod.ext rfl ?_
  show (if l = NOT_AI_LABEL then (3/4 : ℝ) * (1 - (13/20)^k) else 0) * (13/20) +
      (if l = NOT_AI_LABEL then (3/4 : ℝ) else 0) * (1 - 13/20) =
    if l = NOT_AI_LABEL then (3/4 : ℝ) * (1 - (13/20)^(k+1)) else 0
  split_ifs
  · rw [pow_succ]
    ring
  · ring

theorem scenario2_ai_peak (k : ℕ) : ai_peak (scenario2_vec k) = 0 := by
  simp only [ai_peak, scenario2_vec]
  have hmap : AI_LABELS.map (fun l =>
      getD ((AI_LABELS ++ [NOT_AI_LABEL]).map (fun l2 =>
        (l2, if l2 = NOT_AI_LABEL then (3/4 : ℝ) * (1 - (13/20)^k) else 0))) l 0) =
      AI_LABELS.map (fun _ => (0 : ℝ)) := by
    refine List.map_congr_left ?_
    intro l hl
    rw [getD_map_keys (AI_LABELS ++ [NOT_AI_LABEL]) _ l 0,
      if_pos (List.mem_append.mpr (Or.inl hl))]
    have hne : l ≠ NOT_AI_LABEL := fun he => by
      rw [he] at hl
      exact absurd hl (by decide)
    rw [if_neg hne]
  rw [hmap]
  simp [AI_LABELS, listMax]

theorem scenario2_decide (k : ℕ) :
    decide_label (scenario2_vec k) (1/5 : ℝ) = (NOT_AI_LABEL, 3/4 * (1 - (13/20 : ℝ)^k)) := by
  simp only [scenario2_vec, decide_label]
  simp +decide [AI_LABELS, NOT_AI_LABEL, argmaxFirst, getD, List.filter]

theorem scenario2_fps_step (base high now : ℝ) (s : FpsState ℝ) (k : ℕ)
    (hnow : 0 < now) (hs : s.high_mode_until = 0) :
    fps_step (FpsParams.mk base high (1/5) (3/25) 3) s (scenario2_vec k) now =
      FpsState.mk base 0 := by
  simp only [fps_step, scenario2_ai_peak]
  have h1 : ¬ ((1:ℝ)/5 ≤ 0) := by norm_num
  rw [if_neg h1, hs]
  have h2 : ¬ (now < (0:ℝ)) := by linarith
  rw [if_neg h2]
  have h3 : (0:ℝ) ≤ 3/25 := by norm_num
  rw [if_pos h3]

theorem scenario2_step_vec (base high fps0 now : ℝ) (k : ℕ) (hnow : 0 < now) :
    scenario2_step base high (scenario2_vec k, FpsState.mk fps0 0) now =
      (scenario2_vec (k+1), FpsState.mk base 0) := by
  simp only [scenario2_step, scenario2_fuse_eq (7/10), scenario2_smooth_step k]
  rw [scenario2_fps_step base high now _ (k+1) hnow rfl]

theorem scenario2_step_init (base high now : ℝ) (s : FpsState ℝ) (hnow : 0 < now)
    (hs : s.high_mode_until = 0) :
    scenario2_step base high ([], s) now = (scenario2_vec 1, FpsState.mk base 0) := by
  simp only [scenario2_step, scenario2_fuse_eq (7/10), scenario2_smooth_init]
  rw [scenario2_fps_step base high now s 1 hnow hs]

theorem scenario2_fold_base (base high : ℝ) :
    ∀ (times : List ℝ) (k : ℕ), (∀ τ ∈ times, 0 < τ) →
      times.foldl (scenario2_step base high) (scenario2_vec k, FpsState.mk base 0) =
        (scenario2_vec (k + times.length), FpsState.mk base 0) := by
  intro times
  induction times with
  | nil => intro k _; simp
  | cons τ rest ih =>
    intro k hpos
    simp only [List.foldl_cons]
    rw [scenario2_step_vec base high base τ k (hpos τ (List.mem_cons_self _ _))]
    rw [ih (k+1) (fun z hz => hpos z (List.mem_cons_of_mem _ hz))]
    refine Prod.ext ?_ rfl
    show scenario2_vec (k + 1 + rest.length) = scenario2_vec (k + (rest.length + 1))
    congr 1
    omega

theorem scenario2_run_eq (base high : ℝ) (times : List ℝ) (hpos : ∀ τ ∈ times, 0 < τ)
    (hne : times ≠ []) :
    scenario2_run base high times = (scenario2_vec times.length, FpsState.mk base 0) := by
  cases times with
  | nil => exact absurd rfl hne
  | cons τ rest =>
    simp only [scenario2_run, List.foldl_cons]
    rw [scenario2_step_init base high τ _ (hpos τ (List.mem_cons_self _ _)) rfl]
    rw [scenario2_fold_base base high rest 1 (fun z hz => hpos z (List.mem_cons_of_mem _ hz))]
    refine Prod.ext ?_ rfl
    show scenario2_vec (1 + rest.length) = scenario2_vec (τ :: rest).length
    congr 1
    simp [Nat.add_comm]

/-- Claim C3, counterexample: after one scenario-2 iteration (empty hits,
no model, defaults), the decided label is `not_ai_ui` but its confidence is
`0.75 * (1 - 0.65) = 0.2625`, not `1.0`. -/
theorem scenario2_not_confidence_one :
    decide_label (scenario2_run 4 8 [1]).1 (1/5 : ℝ) ≠ (NOT_AI_LABEL, 1) := by
  rw [scenario2_run_eq 4 8 [1] (by intro τ hτ; rw [List.mem_singleton] at hτ; subst hτ; norm_num)
    (by simp)]
  rw [show ([(1:ℝ)]).length = 1 from rfl, scenario2_decide 1]
  intro h
  have h2 := congrArg Prod.snd h
  norm_num at h2

/-- Claim C3, amended: starting from the initial process state, with empty
OCR hits, no auxiliary model, `label_threshold = 0.2` and the default
weights `(0.75, 0.25)` and decay `0.65`, every iteration `k ≥ 1` decides
`not_ai_ui` with confidence `0.75 * (1 - 0.65^k)` (strictly below 1, never
exactly 1.0), and `current_fps` equals `base_fps` after every iteration. -/
theorem scenario2_spec (base high : ℝ) (times : List ℝ) (k : ℕ)
    (hpos : ∀ τ ∈ times, 0 < τ) (hk1 : 1 ≤ k) (hk2 : k ≤ times.length) :
    decide_label (scenario2_run base high (times.take k)).1 (1/5 : ℝ) =
      (NOT_AI_LABEL, 3/4 * (1 - (13/20 : ℝ)^k)) ∧
    (scenario2_run base high (times.take k)).2.current_fps = base := by
  have hlen : (times.take k).length = k := by
    rw [List.length_take]
    omega
  have hrun : scenario2_run base high (times.take k) =
      (scenario2_vec k, FpsState.mk base 0) := by
    rw [scenario2_run_eq base high (times.take k)
      (fun τ hτ => hpos τ (List.mem_of_mem_take hτ))
      (by intro hnil; rw [hnil] at hlen; simp at hlen; omega), hlen]
  rw [hrun, scenario2_decide k]
  exact ⟨rfl, rfl⟩

/-- Witness for the amended C3 at a concrete one-iteration run. -/
theorem scenario2_spec_witness :
    (∀ τ ∈ [(1:ℝ)], 0 < τ) ∧ 1 ≤ 1 ∧ 1 ≤ [(1:ℝ)].length ∧
    (decide_label (scenario2_run 4 8 ([(1:ℝ)].take 1)).1 (1/5 : ℝ) =
        (NOT_AI_LABEL, 3/4 * (1 - (13/20 : ℝ)^1)) ∧
      (scenario2_run 4 8 ([(1:ℝ)].take 1)).2.current_fps = 4) := by
  have hp : ∀ τ ∈ [(1:ℝ)], 0 < τ := by
    intro τ hτ
    rw [List.mem_singleton] at hτ
    subst hτ
    norm_num
  exact ⟨hp, le_refl 1, by norm_num, scenario2_spec 4 8 [1] 1 hp (le_refl 1) (by norm_num)⟩

end Controledu
